import Mathlib

/-!
Verification of the AgriStack J&K forensic governance engine
(`src/agristack_app_v9.py`): a shallow embedding of the scoring pipeline
(`execute_verification_protocol` and its helper functions) together with
proofs of the specified properties.

Modelling conventions:
* A cell of a pandas row is a `Value`: a string, an exact rational standing
  for a Python float, or `vNull` standing for `NaN`.
* A row is an association list from column names to cells; pandas labels are
  unique, lookup takes the first binding.
* Python floats are modelled by exact rationals; `round(x, n)` is modelled
  by round-half-to-even on rationals.
* Python strings are Lean `String`s; the byte encoding used for hashing is
  UTF-8, computed explicitly.
-/

set_option maxRecDepth 65536

namespace AgriStack

/-- A cell of a record row: a string, a number, or a missing value (NaN). -/
inductive Value where
  | vStr (s : String)
  | vNum (q : ℚ)
  | vNull
  deriving DecidableEq

/-- `pd.isna` on a cell. -/
def Value.isna : Value → Bool
  | .vNull => true
  | _ => false

/-- `pd.notna` on a cell. -/
def Value.notna (v : Value) : Bool := !v.isna

/-- Number of digits after the decimal point needed to write `q` exactly
(capped at 17, the precision Python ever prints for a float). -/
def decDigits (q : ℚ) : ℕ :=
  (((List.range 18).find? fun k => (q.den : ℤ) ∣ 10 ^ k).getD 17)

/-- Decimal rendering of a rational, mirroring Python `str` on the exact
decimal values that arise in this program (`-0.4`, `-0.15`, `33.3`, ...).
Whole numbers print with a trailing `.0` as Python floats do. -/
def decRepr (q : ℚ) : String :=
  let k := decDigits q
  if k = 0 then toString q.num ++ ".0"
  else
    let sgn := if q < 0 then "-" else ""
    let digits := toString (|q| * 10 ^ k).num
    let digits := if digits.length ≤ k then
        String.mk (List.replicate (k + 1 - digits.length) '0') ++ digits
      else digits
    sgn ++ digits.take (digits.length - k) ++ "." ++ digits.drop (digits.length - k)

/-- Python `str()` of a cell; `str(nan)` is `"nan"`. -/
def Value.pyStr : Value → String
  | .vStr s => s
  | .vNum q => decRepr q
  | .vNull => "nan"

/-- A record row: association list of column name to cell. -/
abbrev Record := List (String × Value)

/-- Lookup of a column in a row (first binding wins). -/
def lookupVal (r : Record) (k : String) : Option Value :=
  match r with
  | [] => none
  | (k', v) :: rest => if k' = k then some v else lookupVal rest k

/-- `row.get(k, d)` from pandas: the cell if the column exists, else `d`. -/
def Record.get (r : Record) (k : String) (d : Value) : Value :=
  match lookupVal r k with
  | some v => v
  | none => d

/-- `row[k] = v` from pandas: replace the first binding of `k`, or append. -/
def Record.set (r : Record) (k : String) (v : Value) : Record :=
  match r with
  | [] => [(k, v)]
  | (k', v') :: rest => if k' = k then (k, v) :: rest else (k', v') :: Record.set rest k v

/-! ### Character-list string primitives (Python string operations) -/

/-- `s.lower()` as a character list. -/
def toLowerL (s : String) : List Char := s.data.map Char.toLower

/-- Boolean prefix test on character lists. -/
def listPrefixOf : List Char → List Char → Bool
  | [], _ => true
  | _ :: _, [] => false
  | a :: as, b :: bs => a == b && listPrefixOf as bs

/-- Python's substring test `sub in s` on character lists. -/
def containsSub (s sub : List Char) : Bool :=
  (List.range (s.length + 1)).any fun i => listPrefixOf sub (s.drop i)

/-- Fuel-indexed worker for `replaceAll`; the fuel bounds the length of the
subject and makes the recursion structural (hence kernel-computable). -/
def replaceAllF : ℕ → List Char → List Char → List Char → List Char
  | _, [], _, _ => []
  | 0, _ :: _, _, _ => []
  | fuel + 1, c :: rest, pat, repl =>
    if pat ≠ [] ∧ listPrefixOf pat (c :: rest) = true then
      repl ++ replaceAllF fuel ((c :: rest).drop pat.length) pat repl
    else
      c :: replaceAllF fuel rest pat repl

/-- Python `s.replace(pat, repl)`: replace all occurrences left to right,
non-overlapping.  (All patterns used in the program are nonempty.) -/
def replaceAll (s pat repl : List Char) : List Char :=
  replaceAllF s.length s pat repl

/-- Python `s.strip()`: drop leading and trailing whitespace. -/
def pyStrip (l : List Char) : List Char :=
  ((l.dropWhile Char.isWhitespace).reverse.dropWhile Char.isWhitespace).reverse

/-- `s.strip()` on strings. -/
def strip (s : String) : String := String.mk (pyStrip s.data)

/-- `s.upper()` as Python does (ASCII-correct for the data at hand). -/
def pyUpper (s : String) : String := String.mk (s.data.map Char.toUpper)

/-! ### SHA-256 (`hashlib.sha256`), over byte lists with `Nat` arithmetic -/

/-- Truncation to a 32-bit word. -/
def w32 (n : ℕ) : ℕ := n % 4294967296

/-- Rotate the 32-bit word `x` right by `n` bit positions. -/
def rotr (n x : ℕ) : ℕ := w32 ((x >>> n) ||| (x <<< (32 - n)))

def smallSigma0 (x : ℕ) : ℕ := (rotr 7 x) ^^^ (rotr 18 x) ^^^ (x >>> 3)
def smallSigma1 (x : ℕ) : ℕ := (rotr 17 x) ^^^ (rotr 19 x) ^^^ (x >>> 10)
def bigSigma0 (x : ℕ) : ℕ := (rotr 2 x) ^^^ (rotr 13 x) ^^^ (rotr 22 x)
def bigSigma1 (x : ℕ) : ℕ := (rotr 6 x) ^^^ (rotr 11 x) ^^^ (rotr 25 x)

/-- The round-constant table of FIPS 180-4 (cube-root fractions of the
first 64 primes). -/
def shaK : List ℕ :=
  [0x428A2F98, 0x71374491, 0xB5C0FBCF, 0xE9B5DBA5, 0x3956C25B,
   0x59F111F1, 0x923F82A4, 0xAB1C5ED5, 0xD807AA98, 0x12835B01,
   0x243185BE, 0x550C7DC3, 0x72BE5D74, 0x80DEB1FE, 0x9BDC06A7,
   0xC19BF174, 0xE49B69C1, 0xEFBE4786, 0x0FC19DC6, 0x240CA1CC,
   0x2DE92C6F, 0x4A7484AA, 0x5CB0A9DC, 0x76F988DA, 0x983E5152,
   0xA831C66D, 0xB00327C8, 0xBF597FC7, 0xC6E00BF3, 0xD5A79147,
   0x06CA6351, 0x14292967, 0x27B70A85, 0x2E1B2138, 0x4D2C6DFC,
   0x53380D13, 0x650A7354, 0x766A0ABB, 0x81C2C92E, 0x92722C85,
   0xA2BFE8A1, 0xA81A664B, 0xC24B8B70, 0xC76C51A3, 0xD192E819,
   0xD6990624, 0xF40E3585, 0x106AA070, 0x19A4C116, 0x1E376C08,
   0x2748774C, 0x34B0BCB5, 0x391C0CB3, 0x4ED8AA4A, 0x5B9CCA4F,
   0x682E6FF3, 0x748F82EE, 0x78A5636F, 0x84C87814, 0x8CC70208,
   0x90BEFFFA, 0xA4506CEB, 0xBEF9A3F7, 0xC67178F2]

/-- Big-endian bytes (`count` of them) of a natural number. -/
def bigEndianBytes (count n : ℕ) : List ℕ :=
  (List.range count).map fun i => (n >>> (8 * (count - 1 - i))) % 256

/-- SHA-256 padding: append `0x80`, zero bytes to 56 mod 64, then the
64-bit big-endian bit length. -/
def shaPad (msg : List ℕ) : List ℕ :=
  let L := msg.length
  msg ++ [0x80] ++ List.replicate ((119 - (L % 64)) % 64) 0 ++ bigEndianBytes 8 (8 * L)

/-- Group bytes four at a time into big-endian 32-bit words. -/
def bytesToWords : List ℕ → List ℕ
  | b0 :: b1 :: b2 :: b3 :: rest =>
      (((b0 * 256 + b1) * 256 + b2) * 256 + b3) :: bytesToWords rest
  | _ => []

/-- Extend the 16 message words to the 64-entry message schedule. -/
def schedule (w16 : List ℕ) : List ℕ :=
  (List.range 48).foldl
    (fun w _ =>
      let n := w.length
      w ++ [w32 (smallSigma1 (w.getD (n - 2) 0) + w.getD (n - 7) 0 +
                 smallSigma0 (w.getD (n - 15) 0) + w.getD (n - 16) 0)])
    w16

/-- The eight 32-bit working variables of SHA-256. -/
structure ShaState where
  a : ℕ
  b : ℕ
  c : ℕ
  d : ℕ
  e : ℕ
  f : ℕ
  g : ℕ
  h : ℕ

/-- One round of the SHA-256 compression function. -/
def compressRound (s : ShaState) (kw : ℕ × ℕ) : ShaState :=
  let ch := (s.e &&& s.f) ^^^ ((s.e ^^^ 0xffffffff) &&& s.g)
  let t1 := w32 (s.h + bigSigma1 s.e + ch + kw.1 + kw.2)
  let maj := (s.a &&& s.b) ^^^ (s.a &&& s.c) ^^^ (s.b &&& s.c)
  let t2 := w32 (bigSigma0 s.a + maj)
  ⟨w32 (t1 + t2), s.a, s.b, s.c, w32 (s.d + t1), s.e, s.f, s.g⟩

/-- Process one 64-byte block. -/
def processBlock (h : ShaState) (block : List ℕ) : ShaState :=
  let w := schedule (bytesToWords block)
  let s := (shaK.zip w).foldl compressRound h
  ⟨w32 (h.a + s.a), w32 (h.b + s.b), w32 (h.c + s.c), w32 (h.d + s.d),
   w32 (h.e + s.e), w32 (h.f + s.f), w32 (h.g + s.g), w32 (h.h + s.h)⟩

/-- Fuel-indexed worker for `chunks64` (structural recursion on the fuel). -/
def chunks64F : ℕ → List ℕ → List (List ℕ)
  | _, [] => []
  | 0, _ :: _ => []
  | fuel + 1, c :: rest => (c :: rest).take 64 :: chunks64F fuel ((c :: rest).drop 64)

/-- Split a byte list into 64-byte chunks. -/
def chunks64 (l : List ℕ) : List (List ℕ) := chunks64F l.length l

/-- Big-endian bytes of a 32-bit word. -/
def wordBytes (w : ℕ) : List ℕ :=
  [(w >>> 24) % 256, (w >>> 16) % 256, (w >>> 8) % 256, w % 256]

/-- SHA-256 digest (32 bytes) of a byte list. -/
def sha256bytes (msg : List ℕ) : List ℕ :=
  let fin := (chunks64 (shaPad msg)).foldl processBlock
    ⟨0x6A09E667, 0xBB67AE85, 0x3C6EF372, 0xA54FF53A, 0x510E527F,
     0x9B05688C, 0x1F83D9AB, 0x5BE0CD19⟩
  [fin.a, fin.b, fin.c, fin.d, fin.e, fin.f, fin.g, fin.h].flatMap wordBytes

/-- The lowercase hexadecimal digit for `n` (`n < 16` in every use). -/
def hexDigitChar (n : ℕ) : Char := "0123456789abcdef".data.getD n '0'

/-- Two lowercase hex characters of a byte. -/
def byteHex (b : ℕ) : List Char := [hexDigitChar (b / 16 % 16), hexDigitChar (b % 16)]

/-- `hashlib.sha256(...).hexdigest()` as a character list. -/
def hexDigest (msg : List ℕ) : List Char := (sha256bytes msg).flatMap byteHex

/-- UTF-8 bytes of a character. -/
def utf8Bytes (c : Char) : List ℕ :=
  let n := c.toNat
  if n < 0x80 then [n]
  else if n < 0x800 then [0xc0 ||| (n >>> 6), 0x80 ||| (n &&& 0x3f)]
  else if n < 0x10000 then
    [0xe0 ||| (n >>> 12), 0x80 ||| ((n >>> 6) &&& 0x3f), 0x80 ||| (n &&& 0x3f)]
  else
    [0xf0 ||| (n >>> 18), 0x80 ||| ((n >>> 12) &&& 0x3f),
     0x80 ||| ((n >>> 6) &&& 0x3f), 0x80 ||| (n &&& 0x3f)]

/-- `s.encode()`: the UTF-8 bytes of a string. -/
def strBytes (s : String) : List ℕ := s.data.flatMap utf8Bytes

/-! ### difflib.SequenceMatcher (with autojunk)

`SequenceMatcher(None, a, b)` has no junk predicate, but autojunk purges
"popular" characters of `b` — those occurring more than `len(b)/100 + 1`
times — from the position index `b2j` when `len(b) ≥ 200`.  Purged
characters take no part in the chain-building main loop of
`find_longest_match`, but the best block is afterwards extended over
arbitrary equal characters: the `bjunk` set tested by the extension loops
is empty when no junk predicate is given, so the final junk-extension
loops never run. -/

/-- A character of `b` that autojunk keeps in the position index `b2j`. -/
def avail (b : List Char) (c : Char) : Prop :=
  ¬(200 ≤ b.length ∧ b.length / 100 + 1 < b.count c)

instance (b : List Char) (c : Char) : Decidable (avail b c) := by
  unfold avail
  infer_instance

/-- One link of the main loop: position `j` of `b` is indexed in `b2j`
(its character kept by autojunk) and `b[j]` matches `a[i]`. -/
def linkOk (a b : List Char) (i j : ℕ) : Prop :=
  i < a.length ∧ j < b.length ∧ a.getD i ' ' = b.getD j ' ' ∧ avail b (b.getD j ' ')

instance (a b : List Char) (i j : ℕ) : Decidable (linkOk a b i j) := by
  unfold linkOk
  infer_instance

/-- The `j2len` chain value of `find_longest_match`'s main loop: the number
of consecutive links ending at `(i, j)`, every link lying in
`[alo, ·] × [blo, ·]`. -/
def chainLen (a b : List Char) (alo blo : ℕ) : ℕ → ℕ → ℕ
  | 0, j => if alo = 0 ∧ blo ≤ j ∧ linkOk a b 0 j then 1 else 0
  | i + 1, j =>
    if alo ≤ i + 1 ∧ blo ≤ j ∧ linkOk a b (i + 1) j then
      match j with
      | 0 => 1
      | j' + 1 => chainLen a b alo blo i j' + 1
    else 0

theorem chainLen_zero_j (a b : List Char) (alo blo j : ℕ)
    (h : alo = 0 ∧ blo ≤ j ∧ linkOk a b 0 j) :
    chainLen a b alo blo 0 j = 1 := by
  simp only [chainLen]
  rw [if_pos h]

theorem chainLen_succ_zero (a b : List Char) (alo blo i : ℕ)
    (h : alo ≤ i + 1 ∧ blo ≤ 0 ∧ linkOk a b (i + 1) 0) :
    chainLen a b alo blo (i + 1) 0 = 1 := by
  simp only [chainLen]
  rw [if_pos h]

theorem chainLen_succ_succ (a b : List Char) (alo blo i j' : ℕ)
    (h : alo ≤ i + 1 ∧ blo ≤ j' + 1 ∧ linkOk a b (i + 1) (j' + 1)) :
    chainLen a b alo blo (i + 1) (j' + 1) = chainLen a b alo blo i j' + 1 := by
  simp only [chainLen]
  rw [if_pos h]

theorem chainLen_eq_zero_zero (a b : List Char) (alo blo j : ℕ)
    (h : ¬(alo = 0 ∧ blo ≤ j ∧ linkOk a b 0 j)) :
    chainLen a b alo blo 0 j = 0 := by
  simp only [chainLen]
  rw [if_neg h]

theorem chainLen_eq_zero_succ (a b : List Char) (alo blo i j : ℕ)
    (h : ¬(alo ≤ i + 1 ∧ blo ≤ j ∧ linkOk a b (i + 1) j)) :
    chainLen a b alo blo (i + 1) j = 0 := by
  simp only [chainLen]
  rw [if_neg h]

theorem chainLen_le (a b : List Char) (alo blo : ℕ) :
    ∀ i j, chainLen a b alo blo i j ≤ i + 1 - alo ∧
      chainLen a b alo blo i j ≤ j + 1 - blo := by
  intro i
  induction i with
  | zero =>
    intro j
    simp only [chainLen]
    split
    · next h =>
      obtain ⟨h1, h2, -⟩ := h
      omega
    · omega
  | succ i ih =>
    intro j
    cases j with
    | zero =>
      simp only [chainLen]
      split
      · next h =>
        obtain ⟨h1, h2, -⟩ := h
        omega
      · omega
    | succ j' =>
      simp only [chainLen]
      split
      · next h =>
        obtain ⟨h1, h2, -⟩ := h
        obtain ⟨ha, hb⟩ := ih j'
        constructor <;> omega
      · omega

/-- Record the chain ending at `(i, j)` as (start in `a`, start in `b`,
length) when strictly longer than the best so far. -/
def flmStep (a b : List Char) (alo blo i : ℕ) (best : ℕ × ℕ × ℕ) (j : ℕ) :
    ℕ × ℕ × ℕ :=
  if best.2.2 < chainLen a b alo blo i j then
    (i + 1 - chainLen a b alo blo i j, j + 1 - chainLen a b alo blo i j,
     chainLen a b alo blo i j)
  else best

/-- The scan of all positions `j ∈ [blo, bhi)` for a fixed `i`. -/
def flmInner (a b : List Char) (alo blo bhi : ℕ) (best : ℕ × ℕ × ℕ) (i : ℕ) :
    ℕ × ℕ × ℕ :=
  (List.range' blo (bhi - blo)).foldl (flmStep a b alo blo i) best

/-- The main loop of `find_longest_match`: the first longest chain in scan
order (`i` ascending, then `j` ascending), starting from `(alo, blo, 0)`. -/
def flmMain (a b : List Char) (alo ahi blo bhi : ℕ) : ℕ × ℕ × ℕ :=
  (List.range' alo (ahi - alo)).foldl (flmInner a b alo blo bhi) (alo, blo, 0)

/-- The first extension loop of `find_longest_match`: widen the block to
the left over equal characters (popular characters included — `bjunk` is
empty).  The fuel bounds the iteration count; the block's own `i`
coordinate always suffices, since `i` drops by one per step. -/
def extendBack (a b : List Char) (alo blo : ℕ) : ℕ × ℕ × ℕ → ℕ → ℕ × ℕ × ℕ
  | t, 0 => t
  | (i, j, k), fuel + 1 =>
    if alo < i ∧ blo < j ∧ a.getD (i - 1) ' ' = b.getD (j - 1) ' ' then
      extendBack a b alo blo (i - 1, j - 1, k + 1) fuel
    else (i, j, k)

/-- The second extension loop: widen the block to the right; `ahi` bounds
the iteration count since `i + k < ahi` guards every step. -/
def extendFwd (a b : List Char) (ahi bhi : ℕ) : ℕ × ℕ × ℕ → ℕ → ℕ × ℕ × ℕ
  | t, 0 => t
  | (i, j, k), fuel + 1 =>
    if i + k < ahi ∧ j + k < bhi ∧ a.getD (i + k) ' ' = b.getD (j + k) ' ' then
      extendFwd a b ahi bhi (i, j, k + 1) fuel
    else (i, j, k)

/-- `find_longest_match(alo, ahi, blo, bhi)` of `SequenceMatcher(None, a, b)`:
the chain loop over the autojunk-filtered index, then both extension
loops. -/
def findLongestMatch (a b : List Char) (alo ahi blo bhi : ℕ) : ℕ × ℕ × ℕ :=
  extendFwd a b ahi bhi
    (extendBack a b alo blo (flmMain a b alo ahi blo bhi)
      (flmMain a b alo ahi blo bhi).1)
    ahi

/-- Fuel-indexed worker for `matchTotal`: the queue recursion of
`get_matching_blocks` over index ranges, summing the block sizes (the
range measure drops at every level, so fuel equal to it always
suffices). -/
def matchTotalF (a b : List Char) : ℕ → ℕ → ℕ → ℕ → ℕ → ℕ
  | 0, _, _, _, _ => 0
  | fuel + 1, alo, ahi, blo, bhi =>
    match findLongestMatch a b alo ahi blo bhi with
    | (i, j, k) =>
      if k = 0 then 0
      else
        (if alo < i ∧ blo < j then matchTotalF a b fuel alo i blo j else 0) + k +
        (if i + k < ahi ∧ j + k < bhi then
          matchTotalF a b fuel (i + k) ahi (j + k) bhi
         else 0)

/-- `get_matching_blocks`, reduced to the total number of matched
characters. -/
def matchTotal (a b : List Char) : ℕ :=
  matchTotalF a b (a.length + b.length) 0 a.length 0 b.length

/-- The block fits inside the index ranges. -/
def FlmOk (alo ahi blo bhi : ℕ) : ℕ × ℕ × ℕ → Prop
  | (i, j, k) => alo ≤ i ∧ blo ≤ j ∧ i + k ≤ ahi ∧ j + k ≤ bhi

theorem flmStep_ok (a b : List Char) (alo blo i j ahi bhi : ℕ)
    (best : ℕ × ℕ × ℕ) (hi1 : alo ≤ i) (hi2 : i < ahi) (hj1 : blo ≤ j)
    (hj2 : j < bhi) (hbest : FlmOk alo ahi blo bhi best) :
    FlmOk alo ahi blo bhi (flmStep a b alo blo i best j) := by
  unfold flmStep
  split
  · obtain ⟨h1, h2⟩ := chainLen_le a b alo blo i j
    refine ⟨?_, ?_, ?_, ?_⟩ <;> dsimp only <;> omega
  · exact hbest

theorem flmInner_ok (a b : List Char) (alo blo bhi ahi i : ℕ)
    (best : ℕ × ℕ × ℕ) (hi1 : alo ≤ i) (hi2 : i < ahi)
    (hbest : FlmOk alo ahi blo bhi best) :
    FlmOk alo ahi blo bhi (flmInner a b alo blo bhi best i) := by
  unfold flmInner
  apply List.foldlRecOn _ _ _ hbest
  intro best' hbest' j hj
  have hj' := List.mem_range'_1.mp hj
  exact flmStep_ok a b alo blo i j ahi bhi best' hi1 hi2 (by omega) (by omega) hbest'

theorem flmMain_ok (a b : List Char) (alo ahi blo bhi : ℕ)
    (h1 : alo ≤ ahi) (h2 : blo ≤ bhi) :
    FlmOk alo ahi blo bhi (flmMain a b alo ahi blo bhi) := by
  unfold flmMain
  apply List.foldlRecOn _ _ _ (show FlmOk alo ahi blo bhi (alo, blo, 0) by
    exact ⟨le_refl _, le_refl _, by omega, by omega⟩)
  intro best hbest i hi
  have hi' := List.mem_range'_1.mp hi
  exact flmInner_ok a b alo blo bhi ahi i best (by omega) (by omega) hbest

theorem extendBack_ok (a b : List Char) (alo blo ahi bhi : ℕ) :
    ∀ (fuel : ℕ) (t : ℕ × ℕ × ℕ), FlmOk alo ahi blo bhi t →
      FlmOk alo ahi blo bhi (extendBack a b alo blo t fuel) := by
  intro fuel
  induction fuel with
  | zero => intro t ht; exact ht
  | succ fuel ih =>
    intro t ht
    obtain ⟨i, j, k⟩ := t
    simp only [extendBack]
    split
    · next h =>
      apply ih
      obtain ⟨g1, g2, -⟩ := h
      obtain ⟨f1, f2, f3, f4⟩ := ht
      exact ⟨by omega, by omega, by omega, by omega⟩
    · exact ht

theorem extendFwd_ok (a b : List Char) (ahi bhi alo blo : ℕ) :
    ∀ (fuel : ℕ) (t : ℕ × ℕ × ℕ), FlmOk alo ahi blo bhi t →
      FlmOk alo ahi blo bhi (extendFwd a b ahi bhi t fuel) := by
  intro fuel
  induction fuel with
  | zero => intro t ht; exact ht
  | succ fuel ih =>
    intro t ht
    obtain ⟨i, j, k⟩ := t
    simp only [extendFwd]
    split
    · next h =>
      apply ih
      obtain ⟨g1, g2, -⟩ := h
      obtain ⟨f1, f2, f3, f4⟩ := ht
      exact ⟨f1, f2, by omega, by omega⟩
    · exact ht

theorem findLongestMatch_ok (a b : List Char) {alo ahi blo bhi : ℕ}
    (h1 : alo ≤ ahi) (h2 : blo ≤ bhi) :
    FlmOk alo ahi blo bhi (findLongestMatch a b alo ahi blo bhi) := by
  unfold findLongestMatch
  exact extendFwd_ok a b ahi bhi alo blo _ _
    (extendBack_ok a b alo blo ahi bhi _ _ (flmMain_ok a b alo ahi blo bhi h1 h2))

theorem matchTotalF_le (a b : List Char) :
    ∀ (fuel alo ahi blo bhi : ℕ), alo ≤ ahi → blo ≤ bhi →
      matchTotalF a b fuel alo ahi blo bhi ≤ ahi - alo ∧
      matchTotalF a b fuel alo ahi blo bhi ≤ bhi - blo := by
  intro fuel
  induction fuel with
  | zero => intro alo ahi blo bhi _ _; exact ⟨Nat.zero_le _, Nat.zero_le _⟩
  | succ fuel ih =>
    intro alo ahi blo bhi h1 h2
    have hok := findLongestMatch_ok a b h1 h2
    obtain ⟨i, j, k, hflm⟩ : ∃ i j k, findLongestMatch a b alo ahi blo bhi = (i, j, k) :=
      ⟨_, _, _, rfl⟩
    rw [hflm] at hok
    obtain ⟨f1, f2, f3, f4⟩ := hok
    simp only [matchTotalF, hflm]
    split
    · exact ⟨Nat.zero_le _, Nat.zero_le _⟩
    · next hk =>
      obtain ⟨hL1, hL2⟩ := ih alo i blo j f1 f2
      obtain ⟨hR1, hR2⟩ := ih (i + k) ahi (j + k) bhi f3 f4
      constructor
      · split <;> split <;> omega
      · split <;> split <;> omega

/-- The number of matched characters never exceeds either input length. -/
theorem matchTotal_le (a b : List Char) :
    matchTotal a b ≤ a.length ∧ matchTotal a b ≤ b.length := by
  have h := matchTotalF_le a b (a.length + b.length) 0 a.length 0 b.length
    (Nat.zero_le _) (Nat.zero_le _)
  simpa using h

/-! For two identical sequences the chain table is dominated by its
diagonal, so the main loop's first longest chain is a diagonal block, and
the extension loops (which ignore autojunk) then widen it to the whole
string. -/

theorem chainLen_self_le_diag (a : List Char) :
    ∀ i j, chainLen a a 0 0 i j ≤ chainLen a a 0 0 (min i j) (min i j) := by
  intro i
  induction i with
  | zero =>
    intro j
    rw [Nat.zero_min]
    by_cases h : (0 : ℕ) = 0 ∧ (0 : ℕ) ≤ j ∧ linkOk a a 0 j
    · obtain ⟨-, -, h1, h2, heq, hav⟩ := h
      rw [chainLen_zero_j a a 0 0 j ⟨rfl, Nat.zero_le _, h1, h2, heq, hav⟩,
        chainLen_zero_j a a 0 0 0 ⟨rfl, Nat.zero_le _, h1, h1, rfl, by rw [heq]; exact hav⟩]
    · rw [chainLen_eq_zero_zero a a 0 0 j h]
      exact Nat.zero_le _
  | succ i ih =>
    intro j
    cases j with
    | zero =>
      rw [Nat.min_zero]
      by_cases h : (0 : ℕ) ≤ i + 1 ∧ (0 : ℕ) ≤ 0 ∧ linkOk a a (i + 1) 0
      · obtain ⟨h1, h2, heq, hav⟩ := h.2.2
        rw [chainLen_succ_zero a a 0 0 i h,
          chainLen_zero_j a a 0 0 0 ⟨rfl, le_refl 0, h2, h2, rfl, hav⟩]
      · rw [chainLen_eq_zero_succ a a 0 0 i 0 h]
        exact Nat.zero_le _
    | succ j' =>
      have hmin : min (i + 1) (j' + 1) = min i j' + 1 := by omega
      rw [hmin]
      by_cases h : (0 : ℕ) ≤ i + 1 ∧ (0 : ℕ) ≤ j' + 1 ∧ linkOk a a (i + 1) (j' + 1)
      · obtain ⟨h1, h2, heq, hav⟩ := h.2.2
        have hlink : linkOk a a (min i j' + 1) (min i j' + 1) := by
          rcases le_or_lt (j' + 1) (i + 1) with hc | hc
          · have hm : min i j' = j' := by omega
            rw [hm]
            exact ⟨h2, h2, rfl, hav⟩
          · have hm : min i j' = i := by omega
            rw [hm]
            exact ⟨h1, h1, rfl, by rw [heq]; exact hav⟩
        rw [chainLen_succ_succ a a 0 0 i j' h,
          chainLen_succ_succ a a 0 0 (min i j') (min i j')
            ⟨Nat.zero_le _, Nat.zero_le _, hlink⟩]
        have := ih j'
        omega
      · rw [chainLen_eq_zero_succ a a 0 0 i (j' + 1) h]
        exact Nat.zero_le _

theorem flmInner_self_diag (a : List Char) (i : ℕ) :
    ∀ (len j : ℕ) (best : ℕ × ℕ × ℕ),
      best.1 = best.2.1 →
      (∀ d, d < i → chainLen a a 0 0 d d ≤ best.2.2) →
      (i < j → chainLen a a 0 0 i i ≤ best.2.2) →
      ((List.range' j len).foldl (flmStep a a 0 0 i) best).1 =
        ((List.range' j len).foldl (flmStep a a 0 0 i) best).2.1 ∧
      (∀ d, d < i → chainLen a a 0 0 d d ≤
        ((List.range' j len).foldl (flmStep a a 0 0 i) best).2.2) ∧
      (i < j + len → chainLen a a 0 0 i i ≤
        ((List.range' j len).foldl (flmStep a a 0 0 i) best).2.2) := by
  intro len
  induction len with
  | zero =>
    intro j best h1 h2 h3
    simp only [List.range', List.foldl_nil]
    exact ⟨h1, h2, by simpa using h3⟩
  | succ len ih =>
    intro j best h1 h2 h3
    rw [List.range'_succ, List.foldl_cons]
    have harith : j + 1 + len = j + (len + 1) := by omega
    by_cases hlt : best.2.2 < chainLen a a 0 0 i j
    · have hij : i = j := by
        have hminle := chainLen_self_le_diag a i j
        rcases lt_trichotomy i j with hij | hij | hij
        · exfalso
          have hm : min i j = i := by omega
          rw [hm] at hminle
          have := h3 hij
          omega
        · exact hij
        · exfalso
          have hm : min i j = j := by omega
          rw [hm] at hminle
          have := h2 j hij
          omega
      subst hij
      have hstep : flmStep a a 0 0 i best i =
          (i + 1 - chainLen a a 0 0 i i, i + 1 - chainLen a a 0 0 i i,
           chainLen a a 0 0 i i) := by
        unfold flmStep
        rw [if_pos hlt]
      rw [hstep]
      have r := ih (i + 1)
        (i + 1 - chainLen a a 0 0 i i, i + 1 - chainLen a a 0 0 i i,
         chainLen a a 0 0 i i) rfl
        (fun d hd => le_trans (h2 d hd) (le_of_lt hlt))
        (fun _ => le_refl _)
      rw [show i + 1 + len = i + (len + 1) by omega] at r
      exact r
    · have hstep : flmStep a a 0 0 i best j = best := by
        unfold flmStep
        rw [if_neg hlt]
      rw [hstep]
      have r := ih (j + 1) best h1 h2 (fun hij => by
        rcases Nat.lt_or_ge i j with hc | hc
        · exact h3 hc
        · have : i = j := by omega
          subst this
          exact le_of_not_lt hlt)
      rw [harith] at r
      exact r

theorem flmOuter_self_diag (a : List Char) :
    ∀ (len i : ℕ) (best : ℕ × ℕ × ℕ), i + len ≤ a.length →
      best.1 = best.2.1 →
      (∀ d, d < i → chainLen a a 0 0 d d ≤ best.2.2) →
      ((List.range' i len).foldl (flmInner a a 0 0 a.length) best).1 =
        ((List.range' i len).foldl (flmInner a a 0 0 a.length) best).2.1 := by
  intro len
  induction len with
  | zero =>
    intro i best _ h1 _
    simpa using h1
  | succ len ih =>
    intro i best hbound h1 h2
    rw [List.range'_succ, List.foldl_cons]
    have hinner := flmInner_self_diag a i a.length 0 best h1 h2 (by omega)
    have hd := hinner.1
    have hk := hinner.2.1
    have hki := hinner.2.2 (by omega)
    apply ih (i + 1) _ (by omega)
    · show (flmInner a a 0 0 a.length best i).1 = (flmInner a a 0 0 a.length best i).2.1
      unfold flmInner
      rw [Nat.sub_zero]
      exact hd
    · intro d hd2
      show chainLen a a 0 0 d d ≤ (flmInner a a 0 0 a.length best i).2.2
      unfold flmInner
      rw [Nat.sub_zero]
      rcases Nat.lt_or_ge d i with hc | hc
      · exact hk d hc
      · have : d = i := by omega
        subst this
        exact hki

theorem flmMain_self_diag (a : List Char) :
    (flmMain a a 0 a.length 0 a.length).1 =
      (flmMain a a 0 a.length 0 a.length).2.1 := by
  unfold flmMain
  rw [Nat.sub_zero]
  exact flmOuter_self_diag a a.length 0 (0, 0, 0) (by omega) rfl (by omega)

theorem extendBack_self (a : List Char) :
    ∀ d k, extendBack a a 0 0 (d, d, k) d = (0, 0, k + d) := by
  intro d
  induction d with
  | zero => intro k; rfl
  | succ d ih =>
    intro k
    simp only [extendBack]
    split
    · show extendBack a a 0 0 (d, d, k + 1) d = (0, 0, k + (d + 1))
      rw [ih (k + 1), show k + 1 + d = k + (d + 1) from by omega]
    · next hcond => exact absurd (by simp) hcond

theorem extendFwd_self (a : List Char) :
    ∀ fuel k, k ≤ a.length → a.length - k ≤ fuel →
      extendFwd a a a.length a.length (0, 0, k) fuel = (0, 0, a.length) := by
  intro fuel
  induction fuel with
  | zero =>
    intro k h1 h2
    have hk : k = a.length := by omega
    subst hk
    rfl
  | succ fuel ih =>
    intro k h1 h2
    rcases Nat.lt_or_ge k a.length with hk | hk
    · simp only [extendFwd]
      split
      · exact ih (k + 1) (by omega) (by omega)
      · next hcond => exact absurd (by simp [hk]) hcond
    · have hk2 : k = a.length := by omega
      subst hk2
      simp only [extendFwd]
      rw [if_neg (fun hcon => absurd hcon.1 (by omega))]

theorem findLongestMatch_self (a : List Char) :
    findLongestMatch a a 0 a.length 0 a.length = (0, 0, a.length) := by
  unfold findLongestMatch
  have hd := flmMain_self_diag a
  have hok := flmMain_ok a a 0 a.length 0 a.length (Nat.zero_le _) (Nat.zero_le _)
  obtain ⟨i, j, k, hm⟩ : ∃ i j k, flmMain a a 0 a.length 0 a.length = (i, j, k) :=
    ⟨_, _, _, rfl⟩
  rw [hm] at hd hok ⊢
  obtain ⟨f1, f2, f3, f4⟩ := hok
  have hij : i = j := hd
  subst hij
  show extendFwd a a a.length a.length (extendBack a a 0 0 (i, i, k) i) a.length =
    (0, 0, a.length)
  rw [extendBack_self a i k]
  exact extendFwd_self a a.length (k + i) (by omega) (by omega)

/-- A string fully matches itself (difflib's ratio of a sequence with
itself is 1 even under autojunk). -/
theorem matchTotal_self (a : List Char) : matchTotal a a = a.length := by
  unfold matchTotal
  rcases Nat.eq_zero_or_pos a.length with h0 | hpos
  · rw [h0]
    rfl
  · obtain ⟨m, hm⟩ : ∃ m, a.length + a.length = m + 1 :=
      ⟨a.length + a.length - 1, by omega⟩
    rw [hm]
    simp only [matchTotalF, findLongestMatch_self]
    rw [if_neg (by omega)]
    rw [if_neg (fun hcon => absurd hcon.1 (by omega)),
      if_neg (fun hcon => absurd hcon.1 (by omega))]
    omega

/-! ### Python `round` (round-half-to-even) on exact rationals -/

/-- Round a rational to the nearest integer, ties to the even integer
(Python's `round` on floats). -/
def roundHalfEven (q : ℚ) : ℤ :=
  if q - ⌊q⌋ < 1 / 2 then ⌊q⌋
  else if 1 / 2 < q - ⌊q⌋ then ⌊q⌋ + 1
  else if Even ⌊q⌋ then ⌊q⌋ else ⌊q⌋ + 1

/-- Python `round(q, 1)`. -/
def pyRound1 (q : ℚ) : ℚ := roundHalfEven (q * 10) / 10

/-- Python `round(q, 2)`. -/
def pyRound2 (q : ℚ) : ℚ := roundHalfEven (q * 100) / 100

theorem roundHalfEven_intCast (z : ℤ) : roundHalfEven z = z := by
  unfold roundHalfEven
  simp

theorem floor_le_roundHalfEven (q : ℚ) : ⌊q⌋ ≤ roundHalfEven q := by
  unfold roundHalfEven
  split
  · exact le_refl _
  split
  · omega
  split <;> omega

theorem roundHalfEven_le_ceil (q : ℚ) : roundHalfEven q ≤ ⌈q⌉ := by
  have hfr : (⌊q⌋ : ℚ) ≤ q := Int.floor_le q
  have hceil : ∀ _ : (⌊q⌋ : ℚ) < q, ⌊q⌋ + 1 ≤ ⌈q⌉ := fun h =>
    Int.add_one_le_ceil_iff.mpr h
  unfold roundHalfEven
  split
  · exact Int.floor_le_ceil q
  · next h1 =>
    have hlt : (⌊q⌋ : ℚ) < q := by
      have : (1 : ℚ) / 2 ≤ q - ⌊q⌋ := le_of_not_lt h1
      linarith
    have := hceil hlt
    split
    · omega
    split <;> [exact Int.floor_le_ceil q; omega]

/-! ### Module 1: the forensic governance engine (`agristack_app_v9.py`) -/

/-- `SequenceMatcher(None, a, b).ratio()`: `2 * matches / (len(a) + len(b))`,
or `1.0` when both sequences are empty (difflib's `_calculate_ratio`). -/
def seqRatio (a b : List Char) : ℚ :=
  if a.length + b.length = 0 then 1
  else 2 * (matchTotal a b : ℚ) / ((a.length + b.length : ℕ) : ℚ)

/-- The normalization step of `fuzzy_match_score`: lowercase, strip the
honorifics `"sardar"`, `"shri"`, `"mr."` by literal substring removal, and
trim whitespace. -/
def normalizeName (s : String) : List Char :=
  pyStrip (replaceAll (replaceAll (replaceAll (toLowerL s)
    "sardar".data []) "shri".data []) "mr.".data [])

/-- `fuzzy_match_score(name1, name2)`: 0 on NaN input, else the
`SequenceMatcher` ratio of the normalized names scaled to 0–100 and rounded
to one decimal. -/
def fuzzy_match_score (name1 name2 : Value) : ℚ :=
  if name1.isna || name2.isna then 0
  else pyRound1 (seqRatio (normalizeName name1.pyStr) (normalizeName name2.pyStr) * 100)

/-- The statutory-exclusion keyword list of `check_custodian_status`. -/
def custodianKeywords : List String :=
  ["custodian", "evacuee", "muhajireen", "state land", "auqaf"]

/-- `check_custodian_status(remarks)`: keyword scan of the remarks; any hit
returns the flag with a −0.25 penalty. -/
def check_custodian_status (remarks : String) : Bool × ℚ :=
  if custodianKeywords.any (fun w => containsSub (toLowerL remarks) w.data) then
    (true, -0.25)
  else (false, 0.0)

/-- `check_land_nuance(land_type)`: classify uncultivable (gair mumkin) land
into HOUSING / BLOCKED / GENERAL, else AGRI. -/
def check_land_nuance (land_type : String) : String × ℚ :=
  if containsSub (toLowerL land_type) "gair mumkin".data ||
     containsSub (toLowerL land_type) "gair mumakin".data then
    if containsSub (toLowerL land_type) "makan".data ||
       containsSub (toLowerL land_type) "abadi".data then
      ("HOUSING", -0.10)
    else if containsSub (toLowerL land_type) "sarak".data ||
            containsSub (toLowerL land_type) "nallah".data ||
            containsSub (toLowerL land_type) "darya".data then
      ("BLOCKED", -0.40)
    else
      ("GENERAL", -0.15)
  else ("AGRI", 0.0)

/-- `derive_mutation_status(remarks)`: "Pending" on a pending marker, else
"Active" (with or without a digit — the code defaults to "Active"). -/
def derive_mutation_status (remarks : String) : String :=
  if containsSub (toLowerL remarks) "pending".data then "Pending"
  else if (toLowerL remarks).any Char.isDigit then "Active"
  else "Active"

/-- `check_mutation_logic(mutation_status, remarks)`: inheritance amnesty for
pending varasat mutations, broken-chain penalty otherwise. -/
def check_mutation_logic (mutation_status remarks : String) : String × ℚ :=
  if toLowerL mutation_status = "pending".data ∨ toLowerL mutation_status = "no".data then
    if containsSub (toLowerL remarks) "varasat".data then ("GREY_CANDIDATE", 0.0)
    else ("BROKEN_CHAIN", -0.20)
  else ("ACTIVE", 0.0)

/-- `generate_strong_fid(name, khasra, village_code, device_id)`: `"JK-"`
followed by the first 10 hex characters (uppercased) of the SHA-256 of
`str(name).strip().upper() + "|" + str(khasra).strip() + "|" + village_code
+ "|" + device_id`. -/
def generate_strong_fid (name khasra : Value)
    (village_code : String := "VIL001") (device_id : String := "TAB-09") : String :=
  "JK-" ++ pyUpper (String.mk ((hexDigest (strBytes
    (pyUpper (strip name.pyStr) ++ "|" ++ strip khasra.pyStr ++ "|" ++
     village_code ++ "|" ++ device_id))).take 10))

/-! #### The master protocol `execute_verification_protocol`, row by row -/

/-- `str(row.get('Remarks_Kaifiyat', ''))`. -/
def rowRemarks (row : Record) : String := (Record.get row "Remarks_Kaifiyat" (.vStr "")).pyStr

/-- `str(row.get('Land_Type', 'Agricultural'))`. -/
def rowLandType (row : Record) : String :=
  (Record.get row "Land_Type" (.vStr "Agricultural")).pyStr

/-- `str(row.get('Owner_Name', 'Unknown'))`. -/
def rowOwner (row : Record) : String := (Record.get row "Owner_Name" (.vStr "Unknown")).pyStr

/-- The mutation status: the `Revenue_Mutation` cell when present and not
NaN, else derived from the remarks. -/
def rowMutationStatus (row : Record) : String :=
  match lookupVal row "Revenue_Mutation" with
  | some v => if v.notna then v.pyStr else derive_mutation_status (rowRemarks row)
  | none => derive_mutation_status (rowRemarks row)

/-- The verified name: the `VDV_Verified_Name` cell when present and not
NaN, else the owner name. -/
def rowVerifiedName (row : Record) : String :=
  match lookupVal row "VDV_Verified_Name" with
  | some v => if v.notna then v.pyStr else rowOwner row
  | none => rowOwner row

/-- The legal-dispute scan: `'stay' in remarks.lower() or 'court' in
remarks.lower()`. -/
def hasDispute (remarks : String) : Bool :=
  containsSub (toLowerL remarks) "stay".data || containsSub (toLowerL remarks) "court".data

/-- The running `base_score` of the audit loop: start at 1.0 and apply the
five penalty steps in program order. -/
def rawScore (is_custodian : Bool) (custPen : ℚ) (dispute : Bool)
    (landPen mutPen id_score : ℚ) : ℚ :=
  let s1 := if is_custodian then 1.0 + custPen else 1.0
  let s2 := if dispute then s1 - 0.30 else s1
  let s3 := if landPen ≠ 0 then s2 + landPen else s2
  let s4 := if mutPen ≠ 0 then s3 + mutPen else s3
  if id_score < 50 then s4 - 0.30 else s4

/-- The `logic_trace` entries of the audit loop, in program order. -/
def rawTrace (is_custodian dispute : Bool) (land muta : String × ℚ)
    (id_score : ℚ) : List String :=
  (if is_custodian then ["Custodian Land (-0.25)"] else []) ++
  (if dispute then ["Legal Dispute (-0.30)"] else []) ++
  (if land.2 ≠ 0 then ["Land Type: " ++ land.1 ++ " (" ++ decRepr land.2 ++ ")"] else []) ++
  (if muta.2 ≠ 0 then ["Broken Title Chain (-0.20)"]
   else if muta.1 = "GREY_CANDIDATE" then ["Varasat Exemption (Penalty Waived)"] else []) ++
  (if id_score < 50 then ["Identity Mismatch " ++ decRepr id_score ++ "% (-0.30)"] else [])

/-- The audited outputs of one row. -/
structure Audit where
  trust_score : ℚ
  channel : String
  action : String
  trace : List String

/-- The priority chain of the final channel assignment: statutory blocks
override high scores, the grey amnesty and the custodian ceiling come next,
then the plain score thresholds. -/
def resolveChannel (land_cat mut_cat : String) (is_custodian : Bool)
    (final_score : ℚ) : String × String :=
  if land_cat = "BLOCKED" then ("RED", "Ineligible Land (Road/River)")
  else if mut_cat = "GREY_CANDIDATE" ∧ final_score ≥ 0.8 then
    ("GREY", "Deemed Verified (24 Mo. Grace)")
  else if is_custodian = true ∧ final_score ≥ 0.5 then ("AMBER", "Issue CRC (Crop Loan Only)")
  else if final_score ≥ 0.80 then ("GREEN", "Auto-Approve KCC")
  else if final_score ≥ 0.50 then ("AMBER", "Provisional Review")
  else ("RED", "Score Too Low")

/-- `final_score = max(round(base_score, 2), 0.0)` for one row. -/
def rowFinalScore (row : Record) : ℚ :=
  max (pyRound2 (rawScore (check_custodian_status (rowRemarks row)).1
    (check_custodian_status (rowRemarks row)).2
    (hasDispute (rowRemarks row))
    (check_land_nuance (rowLandType row)).2
    (check_mutation_logic (rowMutationStatus row) (rowRemarks row)).2
    (fuzzy_match_score (.vStr (rowOwner row)) (.vStr (rowVerifiedName row))))) 0.0

/-- The body of the audit loop of `execute_verification_protocol` for one
row: run the detectors, accumulate the score, clamp and round it, and
resolve the channel by the priority chain. -/
def auditRow (row : Record) : Audit :=
  { trust_score := rowFinalScore row
    channel := (resolveChannel (check_land_nuance (rowLandType row)).1
      (check_mutation_logic (rowMutationStatus row) (rowRemarks row)).1
      (check_custodian_status (rowRemarks row)).1 (rowFinalScore row)).1
    action := (resolveChannel (check_land_nuance (rowLandType row)).1
      (check_mutation_logic (rowMutationStatus row) (rowRemarks row)).1
      (check_custodian_status (rowRemarks row)).1 (rowFinalScore row)).2
    trace := rawTrace (check_custodian_status (rowRemarks row)).1
      (hasDispute (rowRemarks row))
      (check_land_nuance (rowLandType row))
      (check_mutation_logic (rowMutationStatus row) (rowRemarks row))
      (fuzzy_match_score (.vStr (rowOwner row)) (.vStr (rowVerifiedName row))) }

/-- One row of the result: the input row with the four audit columns
written into it. -/
def evaluateRow (row : Record) : Record :=
  ((((row.set "Trust_Score" (.vNum (auditRow row).trust_score)).set
      "Governance_Channel" (.vStr (auditRow row).channel)).set
      "Action_Taken" (.vStr (auditRow row).action)).set
      "Audit_Trace" (.vStr (if (auditRow row).trace = [] then "Clean Record"
                            else String.intercalate ", " (auditRow row).trace)))

/-- `execute_verification_protocol(df)`: write the `AgriStack_FID` column
for every row, then audit each row in order. -/
def execute_verification_protocol (df : List Record) : List Record :=
  (df.map fun row => row.set "AgriStack_FID"
    (.vStr (generate_strong_fid (Record.get row "Owner_Name" (.vStr "Unknown"))
                                (Record.get row "Khasra_No" (.vStr "000"))))).map
    evaluateRow

/-! ### Support lemmas: penalties are non-positive multiples of 0.01 -/

/-- `q` is an exact multiple of one hundredth. -/
def Cent (q : ℚ) : Prop := ∃ z : ℤ, q = z / 100

theorem Cent.add {a b : ℚ} (ha : Cent a) (hb : Cent b) : Cent (a + b) := by
  obtain ⟨x, rfl⟩ := ha
  obtain ⟨y, rfl⟩ := hb
  exact ⟨x + y, by push_cast; ring⟩

theorem Cent.sub {a b : ℚ} (ha : Cent a) (hb : Cent b) : Cent (a - b) := by
  obtain ⟨x, rfl⟩ := ha
  obtain ⟨y, rfl⟩ := hb
  exact ⟨x - y, by push_cast; ring⟩

theorem cent_base : Cent (1.0 : ℚ) := ⟨100, by norm_num⟩

theorem cent_030 : Cent (0.30 : ℚ) := ⟨30, by norm_num⟩

theorem cust_pen_nonpos (rem : String) : (check_custodian_status rem).2 ≤ 0 := by
  unfold check_custodian_status
  split <;> norm_num

theorem cust_pen_cent (rem : String) : Cent (check_custodian_status rem).2 := by
  unfold check_custodian_status
  split
  · exact ⟨-25, by norm_num⟩
  · exact ⟨0, by norm_num⟩

theorem land_pen_nonpos (lt : String) : (check_land_nuance lt).2 ≤ 0 := by
  unfold check_land_nuance
  split_ifs <;> norm_num

theorem land_pen_cent (lt : String) : Cent (check_land_nuance lt).2 := by
  unfold check_land_nuance
  split_ifs
  · exact ⟨-10, by norm_num⟩
  · exact ⟨-40, by norm_num⟩
  · exact ⟨-15, by norm_num⟩
  · exact ⟨0, by norm_num⟩

theorem mut_pen_nonpos (ms rem : String) : (check_mutation_logic ms rem).2 ≤ 0 := by
  unfold check_mutation_logic
  split_ifs <;> norm_num

theorem mut_pen_cent (ms rem : String) : Cent (check_mutation_logic ms rem).2 := by
  unfold check_mutation_logic
  split_ifs
  · exact ⟨0, by norm_num⟩
  · exact ⟨-20, by norm_num⟩
  · exact ⟨0, by norm_num⟩

theorem rawScore_le_one (c d : Bool) (pc pl pm i : ℚ)
    (hc : pc ≤ 0) (hl : pl ≤ 0) (hm : pm ≤ 0) :
    rawScore c pc d pl pm i ≤ 1 := by
  simp only [rawScore]
  split_ifs <;> norm_num <;> linarith

theorem rawScore_cent (c d : Bool) (pc pl pm i : ℚ)
    (hc : Cent pc) (hl : Cent pl) (hm : Cent pm) :
    Cent (rawScore c pc d pl pm i) := by
  simp only [rawScore]
  split_ifs <;>
    repeat
      first
      | exact hc
      | exact hl
      | exact hm
      | exact cent_base
      | exact cent_030
      | apply Cent.add
      | apply Cent.sub

theorem pyRound2_cent {q : ℚ} (h : Cent q) : pyRound2 q = q := by
  obtain ⟨z, rfl⟩ := h
  unfold pyRound2
  rw [show (z : ℚ) / 100 * 100 = (z : ℚ) by field_simp, roundHalfEven_intCast]

/-- `max(round(q, 2), 0.0)` of a centi-rational `q ≤ 1` lies in `[0, 1]` and
is again a centi-rational. -/
theorem clampScore_bounds (q : ℚ) (h1 : q ≤ 1) (hc : Cent q) :
    0 ≤ max (pyRound2 q) 0.0 ∧ max (pyRound2 q) 0.0 ≤ 1 ∧
      ∃ z : ℤ, max (pyRound2 q) 0.0 = z / 100 := by
  rw [pyRound2_cent hc]
  refine ⟨?_, ?_, ?_⟩
  · exact le_max_of_le_right (by norm_num)
  · exact max_le h1 (by norm_num)
  · obtain ⟨z, rfl⟩ := hc
    refine ⟨max z 0, ?_⟩
    rcases le_total z 0 with hz | hz
    · have hzq : (z : ℚ) / 100 ≤ 0.0 := by
        rw [show (0.0 : ℚ) = 0 by norm_num]
        exact div_nonpos_of_nonpos_of_nonneg (by exact_mod_cast hz) (by norm_num)
      rw [max_eq_right hzq, max_eq_right hz]
      norm_num
    · have hzq : (0.0 : ℚ) ≤ (z : ℚ) / 100 := by
        rw [show (0.0 : ℚ) = 0 by norm_num]
        exact div_nonneg (by exact_mod_cast hz) (by norm_num)
      rw [max_eq_left hzq, max_eq_left hz]

/-! ### Support lemmas: channel resolution -/

theorem resolveChannel_blocked (mc : String) (c : Bool) (fs : ℚ) :
    resolveChannel "BLOCKED" mc c fs = ("RED", "Ineligible Land (Road/River)") := by
  unfold resolveChannel
  rw [if_pos rfl]

theorem resolveChannel_custodian_ne_green (lc mc : String) (fs : ℚ) :
    (resolveChannel lc mc true fs).1 ≠ "GREEN" := by
  unfold resolveChannel
  split_ifs with h1 h2 h3 h4 h5
  · decide
  · decide
  · decide
  · exact absurd ⟨rfl, by linarith⟩ h3
  · decide
  · decide

/-! ### Support lemmas: the similarity score -/

theorem seqRatio_nonneg (a b : List Char) : 0 ≤ seqRatio a b := by
  unfold seqRatio
  split
  · norm_num
  · positivity

theorem seqRatio_le_one (a b : List Char) : seqRatio a b ≤ 1 := by
  unfold seqRatio
  split
  · norm_num
  · next h =>
    obtain ⟨hm1, hm2⟩ := matchTotal_le a b
    have hpos : (0 : ℚ) < ((a.length + b.length : ℕ) : ℚ) := by
      have : 0 < a.length + b.length := Nat.pos_of_ne_zero h
      exact_mod_cast this
    rw [div_le_one hpos]
    have c1 : (matchTotal a b : ℚ) ≤ (a.length : ℚ) := by exact_mod_cast hm1
    have c2 : (matchTotal a b : ℚ) ≤ (b.length : ℚ) := by exact_mod_cast hm2
    push_cast
    linarith

theorem pyRound1_nonneg {q : ℚ} (h : 0 ≤ q) : 0 ≤ pyRound1 q := by
  unfold pyRound1
  have h1 : (0 : ℤ) ≤ ⌊q * 10⌋ := Int.floor_nonneg.mpr (by linarith)
  have h2 := floor_le_roundHalfEven (q * 10)
  have h3 : (0 : ℚ) ≤ (roundHalfEven (q * 10) : ℚ) := by exact_mod_cast le_trans h1 h2
  linarith

theorem pyRound1_le_100 {q : ℚ} (h : q ≤ 100) : pyRound1 q ≤ 100 := by
  unfold pyRound1
  have h2 := roundHalfEven_le_ceil (q * 10)
  have h3 : ⌈q * 10⌉ ≤ 1000 := Int.ceil_le.mpr (by push_cast; linarith)
  have h4 : (roundHalfEven (q * 10) : ℚ) ≤ 1000 := by exact_mod_cast le_trans h2 h3
  linarith

theorem fuzzy_match_score_nonneg (v1 v2 : Value) : 0 ≤ fuzzy_match_score v1 v2 := by
  unfold fuzzy_match_score
  split
  · norm_num
  · exact pyRound1_nonneg (by
      have := seqRatio_nonneg (normalizeName v1.pyStr) (normalizeName v2.pyStr)
      linarith)

theorem fuzzy_match_score_le_100 (v1 v2 : Value) : fuzzy_match_score v1 v2 ≤ 100 := by
  unfold fuzzy_match_score
  split
  · norm_num
  · exact pyRound1_le_100 (by
      have := seqRatio_le_one (normalizeName v1.pyStr) (normalizeName v2.pyStr)
      linarith)

theorem pyRound1_hundred : pyRound1 ((1 : ℚ) * 100) = 100 := by
  unfold pyRound1
  rw [show ((1 : ℚ) * 100) * 10 = ((1000 : ℤ) : ℚ) by norm_num, roundHalfEven_intCast]
  norm_num

/-- The similarity of a (non-NaN) string with itself is the full 100. -/
theorem fuzzy_self (s : String) : fuzzy_match_score (.vStr s) (.vStr s) = 100 := by
  unfold fuzzy_match_score
  simp only [Value.isna, Bool.or_self, if_neg Bool.false_ne_true]
  unfold seqRatio
  rcases Nat.eq_zero_or_pos (normalizeName (Value.pyStr (.vStr s))).length with h0 | hpos
  · rw [if_pos (by omega), pyRound1_hundred]
  · rw [if_neg (by omega), matchTotal_self]
    have hL : ((normalizeName (Value.pyStr (.vStr s))).length : ℚ) ≠ 0 := by
      exact_mod_cast Nat.pos_iff_ne_zero.mp hpos
    rw [show (2 : ℚ) * ((normalizeName (Value.pyStr (.vStr s))).length : ℚ) /
        (((normalizeName (Value.pyStr (.vStr s))).length +
          (normalizeName (Value.pyStr (.vStr s))).length : ℕ) : ℚ) = 1 by
      push_cast
      field_simp
      ring]
    exact pyRound1_hundred

/-! ### Support lemmas: record update and lookup -/

theorem lookupVal_set_self (r : Record) (k : String) (v : Value) :
    lookupVal (Record.set r k v) k = some v := by
  induction r with
  | nil => simp [Record.set, lookupVal]
  | cons p rest ih =>
    obtain ⟨k', v'⟩ := p
    unfold Record.set
    split
    · next h => simp [lookupVal]
    · next h => simp only [lookupVal, if_neg h, ih]

theorem lookupVal_set_ne (r : Record) (k k' : String) (v : Value) (h : k' ≠ k) :
    lookupVal (Record.set r k v) k' = lookupVal r k' := by
  induction r with
  | nil =>
    simp only [Record.set, lookupVal]
    rw [if_neg fun he => h he.symm]
  | cons p rest ih =>
    obtain ⟨k0, v0⟩ := p
    unfold Record.set
    split
    · next he =>
      subst he
      simp only [lookupVal]
      rw [if_neg fun hx => h hx.symm, if_neg fun hx => h hx.symm]
    · next he => simp only [lookupVal, ih]

/-! ### Support lemmas: shape of the generated identifier -/

theorem length_flatMap_const {α β : Type} (l : List α) (f : α → List β) (k : ℕ)
    (h : ∀ x, (f x).length = k) : (l.flatMap f).length = k * l.length := by
  induction l with
  | nil => simp
  | cons x xs ih =>
    simp only [List.flatMap_cons, List.length_append, h, ih, List.length_cons]
    ring

theorem sha256bytes_length (msg : List ℕ) : (sha256bytes msg).length = 32 := by
  simp only [sha256bytes]
  rw [length_flatMap_const _ wordBytes 4 (fun w => rfl)]
  simp

theorem hexDigest_length (msg : List ℕ) : (hexDigest msg).length = 64 := by
  unfold hexDigest
  rw [length_flatMap_const _ byteHex 2 (fun b => rfl), sha256bytes_length]

theorem hexDigitChar_mem (n : ℕ) : hexDigitChar n ∈ "0123456789abcdef".data := by
  unfold hexDigitChar
  rcases lt_or_ge n ("0123456789abcdef".data.length) with h | h
  · rw [List.getD_eq_getElem _ _ h]
    exact List.getElem_mem h
  · rw [List.getD_eq_default _ _ h]
    decide

theorem mem_hexDigest {c : Char} (msg : List ℕ) (h : c ∈ hexDigest msg) :
    c ∈ "0123456789abcdef".data := by
  unfold hexDigest at h
  rw [List.mem_flatMap] at h
  obtain ⟨b, _, hb⟩ := h
  unfold byteHex at hb
  simp only [List.mem_cons, List.not_mem_nil, or_false] at hb
  rcases hb with rfl | rfl <;> exact hexDigitChar_mem _

theorem toUpper_hex {c : Char} (h : c ∈ "0123456789abcdef".data) :
    c.toUpper ∈ "0123456789ABCDEF".data := by
  fin_cases h <;> decide

/-! ### The claims -/

/-- C1: for every record whose land classification resolves to BLOCKED, the
protocol assigns channel RED with the ineligible-land action, regardless of
the trust score and every other field. -/
theorem C1_blocked_forces_red (row : Record)
    (h : (check_land_nuance (rowLandType row)).1 = "BLOCKED") :
    (auditRow row).channel = "RED" ∧
      (auditRow row).action = "Ineligible Land (Road/River)" := by
  have hch : (auditRow row).channel = (resolveChannel (check_land_nuance (rowLandType row)).1
      (check_mutation_logic (rowMutationStatus row) (rowRemarks row)).1
      (check_custodian_status (rowRemarks row)).1 (rowFinalScore row)).1 := rfl
  have hac : (auditRow row).action = (resolveChannel (check_land_nuance (rowLandType row)).1
      (check_mutation_logic (rowMutationStatus row) (rowRemarks row)).1
      (check_custodian_status (rowRemarks row)).1 (rowFinalScore row)).2 := rfl
  rw [hch, hac, h, resolveChannel_blocked]
  exact ⟨rfl, rfl⟩

/-- Witness for C1 at a concrete blocked record. -/
theorem C1_blocked_forces_red_witness :
    (auditRow [("Land_Type", Value.vStr "Gair Mumkin Sarak")]).channel = "RED" ∧
    (auditRow [("Land_Type", Value.vStr "Gair Mumkin Sarak")]).action =
      "Ineligible Land (Road/River)" :=
  C1_blocked_forces_red [("Land_Type", Value.vStr "Gair Mumkin Sarak")] (by decide)

/-- C2: a record that triggers the custodian flag is never routed to the
GREEN channel, whatever its score. -/
theorem C2_custodian_never_green (row : Record)
    (h : (check_custodian_status (rowRemarks row)).1 = true) :
    (auditRow row).channel ≠ "GREEN" := by
  have hch : (auditRow row).channel = (resolveChannel (check_land_nuance (rowLandType row)).1
      (check_mutation_logic (rowMutationStatus row) (rowRemarks row)).1
      (check_custodian_status (rowRemarks row)).1 (rowFinalScore row)).1 := rfl
  rw [hch, h]
  exact resolveChannel_custodian_ne_green _ _ _

/-- Witness for C2 at a concrete custodian record. -/
theorem C2_custodian_never_green_witness :
    (auditRow [("Remarks_Kaifiyat", Value.vStr "Custodian Land")]).channel ≠ "GREEN" :=
  C2_custodian_never_green [("Remarks_Kaifiyat", Value.vStr "Custodian Land")] (by decide)

/-- C3: every trust score lies in [0, 1] and is an exact multiple of 0.01
(two decimal places); every detector penalty is non-positive, so only the
lower clamp at 0.0 is ever needed. -/
theorem C3_score_bounds (row : Record) :
    (0 ≤ (auditRow row).trust_score ∧ (auditRow row).trust_score ≤ 1 ∧
      ∃ z : ℤ, (auditRow row).trust_score = z / 100) ∧
    (∀ rem, (check_custodian_status rem).2 ≤ 0) ∧
    (∀ lt, (check_land_nuance lt).2 ≤ 0) ∧
    (∀ ms rem, (check_mutation_logic ms rem).2 ≤ 0) := by
  refine ⟨?_, cust_pen_nonpos, land_pen_nonpos, mut_pen_nonpos⟩
  have hts : (auditRow row).trust_score = max (pyRound2 (rawScore
      (check_custodian_status (rowRemarks row)).1
      (check_custodian_status (rowRemarks row)).2
      (hasDispute (rowRemarks row))
      (check_land_nuance (rowLandType row)).2
      (check_mutation_logic (rowMutationStatus row) (rowRemarks row)).2
      (fuzzy_match_score (.vStr (rowOwner row)) (.vStr (rowVerifiedName row))))) 0.0 := rfl
  rw [hts]
  exact clampScore_bounds _
    (rawScore_le_one _ _ _ _ _ _ (cust_pen_nonpos _) (land_pen_nonpos _) (mut_pen_nonpos _ _))
    (rawScore_cent _ _ _ _ _ _ (cust_pen_cent _) (land_pen_cent _) (mut_pen_cent _ _))

/-- C8: the pipeline and the identifier generator are deterministic (pure
functions of their arguments), and every identifier is the fixed prefix
`"JK-"` followed by exactly 10 uppercase hexadecimal characters. -/
theorem C8_determinism (df : List Record) (name khasra : Value) (village device : String) :
    execute_verification_protocol df = execute_verification_protocol df ∧
    generate_strong_fid name khasra village device =
      generate_strong_fid name khasra village device ∧
    ∃ tail : String,
      generate_strong_fid name khasra village device = "JK-" ++ tail ∧
      tail.length = 10 ∧ ∀ c ∈ tail.data, c ∈ "0123456789ABCDEF".data := by
  refine ⟨rfl, rfl, pyUpper (String.mk ((hexDigest (strBytes
    (pyUpper (strip name.pyStr) ++ "|" ++ strip khasra.pyStr ++ "|" ++
     village ++ "|" ++ device))).take 10)), rfl, ?_, ?_⟩
  · show (((hexDigest _).take 10).map Char.toUpper).length = 10
    rw [List.length_map, List.length_take, hexDigest_length]
    decide
  · intro c hc
    have hc2 : c ∈ ((hexDigest (strBytes
        (pyUpper (strip name.pyStr) ++ "|" ++ strip khasra.pyStr ++ "|" ++
         village ++ "|" ++ device))).take 10).map Char.toUpper := hc
    rw [List.mem_map] at hc2
    obtain ⟨d, hd, rfl⟩ := hc2
    exact toUpper_hex (mem_hexDigest _ (List.mem_of_mem_take hd))

/-! ### Support lemmas: trace entries -/

theorem mem_if_singleton {c : Prop} [Decidable c] {x e : String}
    (h : e ∈ (if c then [x] else [])) : e = x := by
  split at h
  · simpa using h
  · simp at h

theorem listPrefixOf_false_of_head {a b : Char} {as bs : List Char} (h : a ≠ b) :
    listPrefixOf (a :: as) (b :: bs) = false := by
  simp [listPrefixOf, h]

theorem landEntry_not_mismatch (c : String) (q : ℚ) :
    listPrefixOf "Identity Mismatch".data
      ("Land Type: " ++ c ++ " (" ++ decRepr q ++ ")").data = false := by
  have h1 : "Identity Mismatch".data = 'I' :: "dentity Mismatch".data := rfl
  have h2 : ("Land Type: " ++ c ++ " (" ++ decRepr q ++ ")").data =
      'L' :: ("and Type: " ++ c ++ " (" ++ decRepr q ++ ")").data := rfl
  rw [h1, h2]
  exact listPrefixOf_false_of_head (by decide)

/-- C10: when the `VDV_Verified_Name` column is absent or NaN, the verified
name falls back to the owner name, the self-similarity is the full 100
(not below the 50 threshold), and no identity-mismatch entry is appended to
the audit trace. -/
theorem C10_missing_vdv_no_mismatch (row : Record)
    (h : ∀ v, lookupVal row "VDV_Verified_Name" = some v → v.isna = true) :
    rowVerifiedName row = rowOwner row ∧
    fuzzy_match_score (.vStr (rowOwner row)) (.vStr (rowVerifiedName row)) = 100 ∧
    ¬ fuzzy_match_score (.vStr (rowOwner row)) (.vStr (rowVerifiedName row)) < 50 ∧
    ∀ e ∈ (auditRow row).trace,
      listPrefixOf "Identity Mismatch".data e.data = false := by
  have hv : rowVerifiedName row = rowOwner row := by
    unfold rowVerifiedName
    cases hl : lookupVal row "VDV_Verified_Name" with
    | none => rfl
    | some v =>
      have hna := h v hl
      simp [Value.notna, hna]
  have hf : fuzzy_match_score (.vStr (rowOwner row)) (.vStr (rowVerifiedName row)) = 100 := by
    rw [hv]
    exact fuzzy_self _
  refine ⟨hv, hf, by rw [hf]; norm_num, ?_⟩
  intro e he
  have htr : (auditRow row).trace = rawTrace (check_custodian_status (rowRemarks row)).1
      (hasDispute (rowRemarks row)) (check_land_nuance (rowLandType row))
      (check_mutation_logic (rowMutationStatus row) (rowRemarks row))
      (fuzzy_match_score (.vStr (rowOwner row)) (.vStr (rowVerifiedName row))) := rfl
  rw [htr] at he
  unfold rawTrace at he
  rw [hf] at he
  simp only [List.mem_append] at he
  rcases he with ((((hc | hd) | hl) | hm) | hi)
  · rw [mem_if_singleton hc]
    decide
  · rw [mem_if_singleton hd]
    decide
  · rw [mem_if_singleton hl]
    exact landEntry_not_mismatch _ _
  · split at hm
    · simp only [List.mem_singleton] at hm
      subst hm
      decide
    · rw [mem_if_singleton hm]
      decide
  · rw [if_neg (by norm_num : ¬ (100 : ℚ) < 50)] at hi
    simp at hi

/-! ### C4: the grey amnesty -/

/-- A record meeting C4's written side-conditions (mutation pending,
"varasat" in remarks, no custodian or dispute keyword, land NOT blocked,
full identity similarity) whose land type is nevertheless penalized:
`gair mumkin makan` is HOUSING (−0.10), not BLOCKED. -/
def greyHousingRow : Record :=
  [("Owner_Name", Value.vStr "Ahmad"), ("Land_Type", Value.vStr "Gair Mumkin Makan"),
   ("Remarks_Kaifiyat", Value.vStr "Varasat"), ("Revenue_Mutation", Value.vStr "Pending")]

/-- Counterexample to C4 as stated: `greyHousingRow` satisfies every listed
side-condition (pending varasat mutation, no custodian/dispute keyword,
non-BLOCKED land, similarity ≥ 50), yet its trust score is 0.9, not 1.0. -/
theorem C4_grey_amnesty_counterexample :
    toLowerL (rowMutationStatus greyHousingRow) = "pending".data ∧
    containsSub (toLowerL (rowRemarks greyHousingRow)) "varasat".data = true ∧
    (check_custodian_status (rowRemarks greyHousingRow)).1 = false ∧
    hasDispute (rowRemarks greyHousingRow) = false ∧
    (check_land_nuance (rowLandType greyHousingRow)).1 ≠ "BLOCKED" ∧
    50 ≤ fuzzy_match_score (.vStr (rowOwner greyHousingRow))
      (.vStr (rowVerifiedName greyHousingRow)) ∧
    check_mutation_logic (rowMutationStatus greyHousingRow) (rowRemarks greyHousingRow) =
      ("GREY_CANDIDATE", 0.0) ∧
    (auditRow greyHousingRow).trust_score = 9 / 10 ∧
    ¬ (auditRow greyHousingRow).trust_score = 1 := by
  with_unfolding_all decide

/-- C4 (amended): with the land type classifying as AGRI (zero land
penalty) — not merely non-BLOCKED — a pending-varasat record with no other
penalty yields trust score 1.0 and the GREY deemed-verified channel, and
the mutation detector returns GREY_CANDIDATE with zero penalty. -/
theorem C4_grey_amnesty (row : Record)
    (hmut : toLowerL (rowMutationStatus row) = "pending".data)
    (hvar : containsSub (toLowerL (rowRemarks row)) "varasat".data = true)
    (hcust : (check_custodian_status (rowRemarks row)).1 = false)
    (hdisp : hasDispute (rowRemarks row) = false)
    (hland : check_land_nuance (rowLandType row) = ("AGRI", 0.0))
    (hid : 50 ≤ fuzzy_match_score (.vStr (rowOwner row)) (.vStr (rowVerifiedName row))) :
    check_mutation_logic (rowMutationStatus row) (rowRemarks row) =
      ("GREY_CANDIDATE", 0.0) ∧
    (auditRow row).trust_score = 1 ∧
    (auditRow row).channel = "GREY" ∧
    (auditRow row).action = "Deemed Verified (24 Mo. Grace)" := by
  have hmm : check_mutation_logic (rowMutationStatus row) (rowRemarks row) =
      ("GREY_CANDIDATE", 0.0) := by
    unfold check_mutation_logic
    rw [if_pos (Or.inl hmut), if_pos hvar]
  have hcp : check_custodian_status (rowRemarks row) = (false, 0.0) := by
    unfold check_custodian_status at hcust ⊢
    split at hcust
    · exact absurd hcust (by decide)
    · next h => rw [if_neg h]
  have hraw : rawScore false 0.0 false 0.0 0.0
      (fuzzy_match_score (.vStr (rowOwner row)) (.vStr (rowVerifiedName row))) = 1.0 := by
    simp only [rawScore]
    rw [if_neg (not_lt.mpr hid)]
    norm_num
  have hscore : rowFinalScore row = 1 := by
    unfold rowFinalScore
    rw [hcp, hmm, hland, hdisp]
    show max (pyRound2 (rawScore false 0.0 false 0.0 0.0
      (fuzzy_match_score (.vStr (rowOwner row)) (.vStr (rowVerifiedName row))))) 0.0 = 1
    rw [hraw, pyRound2_cent cent_base, max_eq_left (by norm_num : (0.0 : ℚ) ≤ 1.0)]
    norm_num
  have hres : resolveChannel "AGRI" "GREY_CANDIDATE" false (rowFinalScore row) =
      ("GREY", "Deemed Verified (24 Mo. Grace)") := by
    unfold resolveChannel
    rw [hscore, if_neg (by decide), if_pos ⟨rfl, by norm_num⟩]
  have hch : (auditRow row).channel =
      (resolveChannel "AGRI" "GREY_CANDIDATE" false (rowFinalScore row)).1 := by
    have hch0 : (auditRow row).channel =
        (resolveChannel (check_land_nuance (rowLandType row)).1
          (check_mutation_logic (rowMutationStatus row) (rowRemarks row)).1
          (check_custodian_status (rowRemarks row)).1 (rowFinalScore row)).1 := rfl
    rw [hch0, hland, hmm, hcp]
  have hac : (auditRow row).action =
      (resolveChannel "AGRI" "GREY_CANDIDATE" false (rowFinalScore row)).2 := by
    have hac0 : (auditRow row).action =
        (resolveChannel (check_land_nuance (rowLandType row)).1
          (check_mutation_logic (rowMutationStatus row) (rowRemarks row)).1
          (check_custodian_status (rowRemarks row)).1 (rowFinalScore row)).2 := rfl
    rw [hac0, hland, hmm, hcp]
  have hts : (auditRow row).trust_score = rowFinalScore row := rfl
  refine ⟨hmm, by rw [hts, hscore], by rw [hch, hres], by rw [hac, hres]⟩

/-- A clean pending-varasat record with default (agricultural) land. -/
def varasatRow : Record :=
  [("Owner_Name", Value.vStr "Ahmad"), ("Remarks_Kaifiyat", Value.vStr "Varasat"),
   ("Revenue_Mutation", Value.vStr "Pending")]

/-- Witness for the amended C4 at a concrete pending-varasat record. -/
theorem C4_grey_amnesty_witness :
    check_mutation_logic (rowMutationStatus varasatRow) (rowRemarks varasatRow) =
      ("GREY_CANDIDATE", 0.0) ∧
    (auditRow varasatRow).trust_score = 1 ∧
    (auditRow varasatRow).channel = "GREY" ∧
    (auditRow varasatRow).action = "Deemed Verified (24 Mo. Grace)" :=
  C4_grey_amnesty varasatRow (by decide) (by decide) (by decide) (by decide)
    (by with_unfolding_all decide) (by with_unfolding_all decide)

/-! ### C5 and C6: the land classifier -/

/-- C5: the land rules apply in strict priority order. A land type with the
uncultivable marker and both a housing and an infrastructure sub-phrase is
HOUSING (rule 1 shadows rule 2); the marker with no recognized sub-phrase
gives GENERAL; no marker gives AGRI with zero penalty. -/
theorem C5_land_priority (lt : String) :
    ((containsSub (toLowerL lt) "gair mumkin".data = true ∨
      containsSub (toLowerL lt) "gair mumakin".data = true) →
     (containsSub (toLowerL lt) "makan".data = true ∨
      containsSub (toLowerL lt) "abadi".data = true) →
     (containsSub (toLowerL lt) "sarak".data = true ∨
      containsSub (toLowerL lt) "nallah".data = true ∨
      containsSub (toLowerL lt) "darya".data = true) →
     check_land_nuance lt = ("HOUSING", -0.10)) ∧
    ((containsSub (toLowerL lt) "gair mumkin".data = true ∨
      containsSub (toLowerL lt) "gair mumakin".data = true) →
     containsSub (toLowerL lt) "makan".data = false →
     containsSub (toLowerL lt) "abadi".data = false →
     containsSub (toLowerL lt) "sarak".data = false →
     containsSub (toLowerL lt) "nallah".data = false →
     containsSub (toLowerL lt) "darya".data = false →
     check_land_nuance lt = ("GENERAL", -0.15)) ∧
    (containsSub (toLowerL lt) "gair mumkin".data = false →
     containsSub (toLowerL lt) "gair mumakin".data = false →
     check_land_nuance lt = ("AGRI", 0.0)) := by
  refine ⟨?_, ?_, ?_⟩
  · intro hu hh _
    unfold check_land_nuance
    rw [if_pos (Bool.or_eq_true _ _ |>.mpr hu), if_pos (Bool.or_eq_true _ _ |>.mpr hh)]
  · intro hu hm ha hs hn hd
    unfold check_land_nuance
    rw [if_pos (Bool.or_eq_true _ _ |>.mpr hu), if_neg (by simp [hm, ha]),
        if_neg (by simp [hs, hn, hd])]
  · intro h1 h2
    unfold check_land_nuance
    rw [if_neg (by simp [h1, h2])]

/-- Witness for C5 at three concrete land types. -/
theorem C5_land_priority_witness :
    check_land_nuance "Gair Mumkin Makan Sarak" = ("HOUSING", -0.10) ∧
    check_land_nuance "Gair Mumkin Banjar" = ("GENERAL", -0.15) ∧
    check_land_nuance "Nahri" = ("AGRI", 0.0) :=
  ⟨(C5_land_priority "Gair Mumkin Makan Sarak").1 (Or.inl (by decide)) (Or.inl (by decide))
     (Or.inl (by decide)),
   (C5_land_priority "Gair Mumkin Banjar").2.1 (Or.inl (by decide)) (by decide) (by decide)
     (by decide) (by decide) (by decide),
   (C5_land_priority "Nahri").2.2 (by decide) (by decide)⟩

/-- Modelled from the spec: the spec's rule 2 lists "road/waterway/forest/
river synonyms" as infrastructure sub-phrases, but the source recognizes
only `sarak`/`nallah`/`darya` (road/waterway/river) and has no forest
synonym.  This predicate captures a land type containing a forest synonym
(`jangal`/`jungle`). -/
def specForestSub (lt : String) : Bool :=
  containsSub (toLowerL lt) "jangal".data || containsSub (toLowerL lt) "jungle".data

/-- Counterexample to C6 as stated: `"Gair Mumkin Jangal"` carries the
uncultivable marker and a forest synonym, yet the classifier returns
GENERAL (−0.15), not BLOCKED. -/
theorem C6_forest_counterexample :
    containsSub (toLowerL "Gair Mumkin Jangal") "gair mumkin".data = true ∧
    specForestSub "Gair Mumkin Jangal" = true ∧
    check_land_nuance "Gair Mumkin Jangal" = ("GENERAL", -0.15) ∧
    ("GENERAL" : String) ≠ "BLOCKED" := by
  refine ⟨by decide, by decide, ?_, by decide⟩
  with_unfolding_all decide

/-- C6 (amended): the blocking sub-phrases are the road/waterway/river words
`sarak`/`nallah`/`darya` only (no forest synonym); with the uncultivable
marker, one of them, and no housing sub-phrase, the classifier returns
BLOCKED with the −0.40 hard-stop penalty. -/
theorem C6_blocked_infra (lt : String)
    (hu : containsSub (toLowerL lt) "gair mumkin".data = true ∨
          containsSub (toLowerL lt) "gair mumakin".data = true)
    (hs : containsSub (toLowerL lt) "sarak".data = true ∨
          containsSub (toLowerL lt) "nallah".data = true ∨
          containsSub (toLowerL lt) "darya".data = true)
    (hm : containsSub (toLowerL lt) "makan".data = false)
    (ha : containsSub (toLowerL lt) "abadi".data = false) :
    check_land_nuance lt = ("BLOCKED", -0.40) := by
  unfold check_land_nuance
  rw [if_pos (Bool.or_eq_true _ _ |>.mpr hu), if_neg (by simp [hm, ha]),
      if_pos (by simp only [Bool.or_eq_true]; tauto)]

/-- Witness for the amended C6 at a concrete riverbed record. -/
theorem C6_blocked_infra_witness :
    check_land_nuance "Gair Mumkin Nallah" = ("BLOCKED", -0.40) :=
  C6_blocked_infra "Gair Mumkin Nallah" (Or.inl (by decide))
    (Or.inr (Or.inl (by decide))) (by decide) (by decide)

/-! ### C7: the similarity primitive -/

/-- Counterexample to C7 as stated: `"shri"` and `"sardar"` both normalize
to the empty string, where the claimed formula `2·M/T × 100` is a division
by zero (total characters 0), while the function returns 100 (difflib's
convention for two empty sequences), not the formula's value. -/
theorem C7_similarity_counterexample :
    (Value.vStr "shri").isna = false ∧ (Value.vStr "sardar").isna = false ∧
    (normalizeName (Value.vStr "shri").pyStr).length +
      (normalizeName (Value.vStr "sardar").pyStr).length = 0 ∧
    fuzzy_match_score (.vStr "shri") (.vStr "sardar") = 100 ∧
    pyRound1 (2 * (matchTotal (normalizeName (Value.vStr "shri").pyStr)
        (normalizeName (Value.vStr "sardar").pyStr) : ℚ) /
      (((normalizeName (Value.vStr "shri").pyStr).length +
        (normalizeName (Value.vStr "sardar").pyStr).length : ℕ) : ℚ) * 100) = 0 ∧
    (100 : ℚ) ≠ 0 := by
  with_unfolding_all decide

/-- C7 (amended): the similarity is 0 on NaN input; otherwise it lies in
[0, 100] and equals `round1(2·M/T × 100)` whenever the two normalized names
are not both empty; when both normalize to the empty string it is 100
(difflib's empty-sequence convention), where the formula is undefined. -/
theorem C7_similarity (v1 v2 : Value) :
    (v1.isna = true ∨ v2.isna = true → fuzzy_match_score v1 v2 = 0) ∧
    (v1.isna = false → v2.isna = false →
      0 ≤ fuzzy_match_score v1 v2 ∧ fuzzy_match_score v1 v2 ≤ 100 ∧
      ((normalizeName v1.pyStr).length + (normalizeName v2.pyStr).length ≠ 0 →
        fuzzy_match_score v1 v2 =
          pyRound1 (2 * (matchTotal (normalizeName v1.pyStr) (normalizeName v2.pyStr) : ℚ) /
            (((normalizeName v1.pyStr).length + (normalizeName v2.pyStr).length : ℕ) : ℚ) *
            100)) ∧
      ((normalizeName v1.pyStr).length + (normalizeName v2.pyStr).length = 0 →
        fuzzy_match_score v1 v2 = 100)) := by
  constructor
  · intro h
    unfold fuzzy_match_score
    rcases h with h | h <;> simp [h]
  · intro h1 h2
    refine ⟨fuzzy_match_score_nonneg _ _, fuzzy_match_score_le_100 _ _, ?_, ?_⟩
    · intro hne
      unfold fuzzy_match_score
      rw [h1, h2]
      show pyRound1 (seqRatio _ _ * 100) = _
      unfold seqRatio
      rw [if_neg hne]
    · intro hz
      unfold fuzzy_match_score
      rw [h1, h2]
      show pyRound1 (seqRatio _ _ * 100) = _
      unfold seqRatio
      rw [if_pos hz, pyRound1_hundred]

/-- Witness for the amended C7: each branch at a concrete input. -/
theorem C7_similarity_witness :
    fuzzy_match_score Value.vNull (Value.vStr "x") = 0 ∧
    fuzzy_match_score (Value.vStr "ram") (Value.vStr "ram") ≤ 100 ∧
    fuzzy_match_score (Value.vStr "rama") (Value.vStr "ramb") =
      pyRound1 (2 * (matchTotal (normalizeName (Value.vStr "rama").pyStr)
          (normalizeName (Value.vStr "ramb").pyStr) : ℚ) /
        (((normalizeName (Value.vStr "rama").pyStr).length +
          (normalizeName (Value.vStr "ramb").pyStr).length : ℕ) : ℚ) * 100) ∧
    fuzzy_match_score (Value.vStr "mr.") (Value.vStr "shri") = 100 :=
  ⟨(C7_similarity Value.vNull (Value.vStr "x")).1 (Or.inl rfl),
   ((C7_similarity (Value.vStr "ram") (Value.vStr "ram")).2 rfl rfl).2.1,
   ((C7_similarity (Value.vStr "rama") (Value.vStr "ramb")).2 rfl rfl).2.2.1 (by decide),
   ((C7_similarity (Value.vStr "mr.") (Value.vStr "shri")).2 rfl rfl).2.2.2 (by decide)⟩

/-! ### C9: the batch frame property -/

/-- The five columns written by the protocol. -/
def outputCols : List String :=
  ["AgriStack_FID", "Trust_Score", "Governance_Channel", "Action_Taken", "Audit_Trace"]

theorem execute_cons (r : Record) (rest : List Record) :
    execute_verification_protocol (r :: rest) =
      evaluateRow (r.set "AgriStack_FID"
        (.vStr (generate_strong_fid (Record.get r "Owner_Name" (.vStr "Unknown"))
                                    (Record.get r "Khasra_No" (.vStr "000"))))) ::
      execute_verification_protocol rest := rfl

theorem evalRow_keeps (row : Record) (fid : Value) (k : String) (h : k ∉ outputCols) :
    lookupVal (evaluateRow (row.set "AgriStack_FID" fid)) k = lookupVal row k := by
  simp only [outputCols, List.mem_cons, List.not_mem_nil, or_false, not_or] at h
  obtain ⟨h1, h2, h3, h4, h5⟩ := h
  unfold evaluateRow
  rw [lookupVal_set_ne _ _ _ _ h5, lookupVal_set_ne _ _ _ _ h4,
      lookupVal_set_ne _ _ _ _ h3, lookupVal_set_ne _ _ _ _ h2,
      lookupVal_set_ne _ _ _ _ h1]

theorem evalRow_outputs (row : Record) (fid : Value) (k : String) (h : k ∈ outputCols) :
    (lookupVal (evaluateRow (row.set "AgriStack_FID" fid)) k).isSome = true := by
  unfold evaluateRow
  simp only [outputCols, List.mem_cons, List.not_mem_nil, or_false] at h
  rcases h with rfl | rfl | rfl | rfl | rfl
  · rw [lookupVal_set_ne _ _ _ _ (by decide), lookupVal_set_ne _ _ _ _ (by decide),
        lookupVal_set_ne _ _ _ _ (by decide), lookupVal_set_ne _ _ _ _ (by decide),
        lookupVal_set_self]
    rfl
  · rw [lookupVal_set_ne _ _ _ _ (by decide), lookupVal_set_ne _ _ _ _ (by decide),
        lookupVal_set_ne _ _ _ _ (by decide), lookupVal_set_self]
    rfl
  · rw [lookupVal_set_ne _ _ _ _ (by decide), lookupVal_set_ne _ _ _ _ (by decide),
        lookupVal_set_self]
    rfl
  · rw [lookupVal_set_ne _ _ _ _ (by decide), lookupVal_set_self]
    rfl
  · rw [lookupVal_set_self]
    rfl

/-- A batch whose single record carries an extra field named like an output
column: the protocol overwrites it, contradicting C9's "every input field
(including unknown extra fields) keeps its original value". -/
def clashBatch : List Record := [[("Trust_Score", Value.vStr "x")]]

/-- Counterexample to C9 as stated: the input cell `Trust_Score = "x"` does
not keep its value through evaluation. -/
theorem C9_frame_counterexample :
    lookupVal (clashBatch.getD 0 []) "Trust_Score" = some (Value.vStr "x") ∧
    lookupVal ((execute_verification_protocol clashBatch).getD 0 []) "Trust_Score" ≠
      some (Value.vStr "x") := by
  constructor
  · rfl
  · with_unfolding_all decide

/-- C9 (amended): the batch result has the same length and order as the
input; every input field whose name is not one of the five output columns
keeps its original value (in particular unknown extra fields); and the five
output columns are present in every output row.  Input fields that collide
with an output column name are overwritten. -/
theorem C9_frame (df : List Record) :
    (execute_verification_protocol df).length = df.length ∧
    (∀ i k, k ∉ outputCols →
      lookupVal ((execute_verification_protocol df).getD i []) k =
        lookupVal (df.getD i []) k) ∧
    (∀ i, i < df.length → ∀ k, k ∈ outputCols →
      (lookupVal ((execute_verification_protocol df).getD i []) k).isSome = true) := by
  refine ⟨by simp [execute_verification_protocol], ?_, ?_⟩
  · induction df with
    | nil => intro i k _; rfl
    | cons r rest ih =>
      intro i k hk
      rw [execute_cons]
      cases i with
      | zero => exact evalRow_keeps r _ k hk
      | succ i => simpa using ih i k hk
  · induction df with
    | nil => intro i hi; exact absurd hi (by simp)
    | cons r rest ih =>
      intro i hi k hk
      rw [execute_cons]
      cases i with
      | zero => exact evalRow_outputs r _ k hk
      | succ i => simpa using ih i (by simpa using hi) k hk

/-- Witness for the amended C9 at a concrete one-record batch. -/
theorem C9_frame_witness :
    lookupVal ((execute_verification_protocol [[("Area_Kanal", Value.vStr "5")]]).getD 0 [])
        "Area_Kanal" =
      lookupVal ([[("Area_Kanal", Value.vStr "5")]].getD 0 []) "Area_Kanal" ∧
    (lookupVal ((execute_verification_protocol [[("Area_Kanal", Value.vStr "5")]]).getD 0 [])
        "Trust_Score").isSome = true :=
  ⟨(C9_frame [[("Area_Kanal", Value.vStr "5")]]).2.1 0 "Area_Kanal" (by decide),
   (C9_frame [[("Area_Kanal", Value.vStr "5")]]).2.2 0 (by decide) "Trust_Score" (by decide)⟩

/-- Witness for C10 at a record with no `VDV_Verified_Name` column. -/
theorem C10_missing_vdv_witness :
    rowVerifiedName [("Owner_Name", Value.vStr "Ram")] =
      rowOwner [("Owner_Name", Value.vStr "Ram")] ∧
    fuzzy_match_score (.vStr (rowOwner [("Owner_Name", Value.vStr "Ram")]))
      (.vStr (rowVerifiedName [("Owner_Name", Value.vStr "Ram")])) = 100 :=
  ⟨(C10_missing_vdv_no_mismatch [("Owner_Name", Value.vStr "Ram")]
      (fun _v hv => nomatch hv)).1,
   (C10_missing_vdv_no_mismatch [("Owner_Name", Value.vStr "Ram")]
      (fun _v hv => nomatch hv)).2.1⟩

end AgriStack
